import Mathlib

/-!
Verification of the AVA chess engine's search core (src/strategies.py,
src/AVA_engine.py) against its natural-language specification.

The engine's own code (move ordering, minimax with alpha-beta pruning, the
time-to-depth policy, the top-level play entry points) is embedded shallowly
below.  The external rules collaborator (the python-chess `Board`) is out of
scope per the spec and is modelled as an abstract interface `Rules` providing
legal-move enumeration, move application, and the terminal-state queries; the
static evaluator is likewise kept abstract (`Rules.evaluate`), since every
claim treats the leaf evaluation as an opaque score.  Board mutation via
`push`/`pop` is modelled by explicit state passing of a move stack.
-/

namespace AVA

/-- Scores in the engine are Python floats that are always either a finite
evaluation or one of the sentinels `float('inf')` / `-float('inf')`.
We model them as integers extended with the two sentinels. -/
inductive Score where
  | ninf : Score
  | fin : Int → Score
  | pinf : Score
deriving DecidableEq

/-- The order on scores, mirroring Python float comparison on
`-inf < finite < +inf`. -/
def Score.ble : Score → Score → Bool
  | .ninf, _ => true
  | _, .pinf => true
  | .fin a, .fin b => a ≤ b
  | .pinf, .fin _ => false
  | .pinf, .ninf => false
  | .fin _, .ninf => false

instance : LinearOrder Score where
  le a b := Score.ble a b = true
  le_refl a := by cases a <;> simp [Score.ble]
  le_trans a b c := by
    cases a <;> cases b <;> cases c <;> simp [Score.ble] <;> omega
  le_antisymm a b := by
    cases a <;> cases b <;> simp [Score.ble] <;> omega
  le_total a b := by
    cases a <;> cases b <;> simp [Score.ble] <;> omega
  decidableLE a b := inferInstanceAs (Decidable (Score.ble a b = true))

instance (a b : Score) : Decidable (a ≤ b) := LinearOrder.decidableLE a b

instance (a b : Score) : Decidable (a < b) := LinearOrder.decidableLT a b

instance : OrderBot Score where
  bot := Score.ninf
  bot_le a := by cases a <;> simp [(· ≤ ·), Score.ble]

instance : OrderTop Score where
  top := Score.pinf
  le_top a := by cases a <;> simp [(· ≤ ·), Score.ble]

theorem Score.bot_def : (⊥ : Score) = Score.ninf := rfl

theorem Score.top_def : (⊤ : Score) = Score.pinf := rfl

theorem Score.ninf_lt_pinf : Score.ninf < Score.pinf := by decide

/-- The external rules collaborator ("Board" in the spec): legal-move
enumeration (in its stable order), move application, the terminal-state
queries used by the engine, capture/check tests, side to move, and the
static evaluation used at leaves. -/
structure Rules where
  Pos : Type
  Move : Type
  step : Pos → Move → Pos
  legalMoves : Pos → List Move
  isCheckmate : Pos → Bool
  isStalemate : Pos → Bool
  isInsufficientMaterial : Pos → Bool
  isSeventyfiveMoves : Pos → Bool
  isFivefoldRepetition : Pos → Bool
  isRepetition3 : Pos → Bool
  isCheck : Pos → Bool
  isGameOver : Pos → Bool
  isCapture : Pos → Move → Bool
  turn : Pos → Bool
  evaluate : Pos → Int

/-- The mutable `chess.Board`: a base position plus the stack of moves pushed
onto it.  `push` appends a move, `pop` removes the most recent one; the
current position is obtained by replaying the stack. -/
structure Board (g : Rules) where
  init : g.Pos
  stack : List g.Move

/-- The position the board currently represents. -/
def Board.pos {g : Rules} (b : Board g) : g.Pos :=
  b.stack.foldl g.step b.init

/-- `board.push(move)`. -/
def Board.push {g : Rules} (b : Board g) (m : g.Move) : Board g :=
  ⟨b.init, b.stack ++ [m]⟩

/-- `board.pop()`. -/
def Board.pop {g : Rules} (b : Board g) : Board g :=
  ⟨b.init, b.stack.dropLast⟩

@[simp] theorem Board.pop_push {g : Rules} (b : Board g) (m : g.Move) :
    (b.push m).pop = b := by
  simp [Board.push, Board.pop, List.dropLast_concat]

@[simp] theorem Board.pos_push {g : Rules} (b : Board g) (m : g.Move) :
    (b.push m).pos = g.step b.pos m := by
  simp [Board.push, Board.pos, List.foldl_append]

/-- `AVAChessEngine._is_draw` (src/strategies.py:157-164): stalemate,
insufficient material, seventy-five-move rule, fivefold repetition or a
threefold repetition.  The minimax in src/AVA_engine.py:152-153 tests the
same five conditions inline. -/
def isDraw (g : Rules) (p : g.Pos) : Bool :=
  g.isStalemate p || g.isInsufficientMaterial p || g.isSeventyfiveMoves p ||
    g.isFivefoldRepetition p || g.isRepetition3 p

/-- The loop of `AVAChessEngine._sort_moves` (src/strategies.py:264-274).
Captures are appended to the first bucket.  For a non-capture the source
pushes the move and then tests `if board.is_check:` — `is_check` without
parentheses is the bound method object, which is always truthy, so every
non-capture is appended to the `checks` bucket and `others` stays empty;
the push is undone by `board.pop()` before the next iteration. -/
def sortMovesLoop (g : Rules) :
    Board g → List g.Move → List g.Move → List g.Move → List g.Move →
      Board g × List g.Move × List g.Move × List g.Move
  | b, [], captures, checks, others => (b, captures, checks, others)
  | b, m :: rest, captures, checks, others =>
    if g.isCapture b.pos m then
      sortMovesLoop g b rest (captures ++ [m]) checks others
    else
      let b1 := b.push m
      let b2 := b1.pop
      sortMovesLoop g b2 rest captures (checks ++ [m]) others

/-- `AVAChessEngine._sort_moves` (src/strategies.py:253-279): run the
bucketing loop over the legal moves, then concatenate
captures ++ checks ++ others. -/
def sortMoves (g : Rules) (b : Board g) : Board g × List g.Move :=
  let r := sortMovesLoop g b (g.legalMoves b.pos) [] [] []
  (r.1, r.2.1 ++ r.2.2.1 ++ r.2.2.2)

/-- The maximizing sibling loop of the minimax functions
(src/strategies.py:307-323, src/AVA_engine.py:147-164), generic in the
per-child scoring `cVal` (which receives the pushed board and the current
window): push the move, score the child, pop, update `best_move` /
`best_position` on strict improvement, raise `alpha`, and break out of the
loop as soon as `beta <= alpha`. -/
def maxLoop (g : Rules) (cVal : Board g → Score → Score → Board g × Score) :
    Board g → List g.Move → Score → Score → Option g.Move → Score →
      Board g × Option g.Move × Score
  | b, [], _, _, bestMove, bestPosition => (b, bestMove, bestPosition)
  | b, m :: rest, alpha, beta, bestMove, bestPosition =>
    let b1 := b.push m
    let r := cVal b1 alpha beta
    let b3 := r.1.pop
    let bm1 := if bestPosition < r.2 then some m else bestMove
    let bp1 := if bestPosition < r.2 then r.2 else bestPosition
    let alpha1 := max alpha r.2
    if beta ≤ alpha1 then (b3, bm1, bp1)
    else maxLoop g cVal b3 rest alpha1 beta bm1 bp1

/-- The minimizing sibling loop (src/strategies.py:325-341,
src/AVA_engine.py:165-180): mirror image with `<`, `beta = min(beta, score)`
and the same `beta <= alpha` cutoff. -/
def minLoop (g : Rules) (cVal : Board g → Score → Score → Board g × Score) :
    Board g → List g.Move → Score → Score → Option g.Move → Score →
      Board g × Option g.Move × Score
  | b, [], _, _, bestMove, bestPosition => (b, bestMove, bestPosition)
  | b, m :: rest, alpha, beta, bestMove, bestPosition =>
    let b1 := b.push m
    let r := cVal b1 alpha beta
    let b3 := r.1.pop
    let bm1 := if r.2 < bestPosition then some m else bestMove
    let bp1 := if r.2 < bestPosition then r.2 else bestPosition
    let beta1 := min beta r.2
    if beta1 ≤ alpha then (b3, bm1, bp1)
    else minLoop g cVal b3 rest alpha beta1 bm1 bp1

/-- Per-child scoring on the maximizing branch of
`AVAChessEngine.minimax` (src/strategies.py:310-315): checkmate scores the
sentinel `+inf`, a draw scores `0`, otherwise recurse (`recur` is the
recursive minimax call at `depth - 1` for the minimizing side). -/
def childMaxS (g : Rules)
    (recur : Board g → Score → Score → Board g × Option g.Move × Score)
    (b1 : Board g) (alpha beta : Score) : Board g × Score :=
  if g.isCheckmate b1.pos then (b1, Score.pinf)
  else if isDraw g b1.pos then (b1, Score.fin 0)
  else
    let r := recur b1 alpha beta
    (r.1, r.2.2)

/-- Per-child scoring on the minimizing branch of
`AVAChessEngine.minimax` (src/strategies.py:328-333): checkmate scores
`-inf`, a draw scores `0`, otherwise recurse for the maximizing side. -/
def childMinS (g : Rules)
    (recur : Board g → Score → Score → Board g × Option g.Move × Score)
    (b1 : Board g) (alpha beta : Score) : Board g × Score :=
  if g.isCheckmate b1.pos then (b1, Score.ninf)
  else if isDraw g b1.pos then (b1, Score.fin 0)
  else
    let r := recur b1 alpha beta
    (r.1, r.2.2)

/-- Per-child scoring on the maximizing branch of `minimax`
(src/AVA_engine.py:150-156): identical to the strategies variant —
checkmate is `+inf`, the five-condition draw is `0`, otherwise recurse. -/
def childMaxA (g : Rules)
    (recur : Board g → Score → Score → Board g × Option g.Move × Score)
    (b1 : Board g) (alpha beta : Score) : Board g × Score :=
  if g.isCheckmate b1.pos then (b1, Score.pinf)
  else if isDraw g b1.pos then (b1, Score.fin 0)
  else
    let r := recur b1 alpha beta
    (r.1, r.2.2)

/-- Per-child scoring on the minimizing branch of `minimax`
(src/AVA_engine.py:169-172): checkmate is `-inf`, otherwise recurse —
this branch has NO draw test, unlike the maximizing branch. -/
def childMinA (g : Rules)
    (recur : Board g → Score → Score → Board g × Option g.Move × Score)
    (b1 : Board g) (alpha beta : Score) : Board g × Score :=
  if g.isCheckmate b1.pos then (b1, Score.ninf)
  else
    let r := recur b1 alpha beta
    (r.1, r.2.2)

/-- `AVAChessEngine.minimax` (src/strategies.py:281-341).  A leaf
(`not depth or board.is_game_over()`) returns `(None, evaluate_position)`;
otherwise the legal moves are ordered by `_sort_moves` and the maximizing
or minimizing sibling loop runs with initial best `∓inf` and best move
`None`. -/
def minimaxS (g : Rules) :
    Nat → Board g → Score → Score → Bool → Board g × Option g.Move × Score
  | 0, b, _, _, _ => (b, none, Score.fin (g.evaluate b.pos))
  | d + 1, b, alpha, beta, whiteMove =>
    if g.isGameOver b.pos then (b, none, Score.fin (g.evaluate b.pos))
    else
      let s := sortMoves g b
      if whiteMove then
        maxLoop g (childMaxS g (fun b1 a2 b2 => minimaxS g d b1 a2 b2 false))
          s.1 s.2 alpha beta none Score.ninf
      else
        minLoop g (childMinS g (fun b1 a2 b2 => minimaxS g d b1 a2 b2 true))
          s.1 s.2 alpha beta none Score.pinf

/-- `minimax` (src/AVA_engine.py:117-180).  Same shape as the strategies
variant except that the sibling loops iterate over `board.legal_moves`
directly (no ordering), the empty best move is the string `""` (modelled as
`none`), and the minimizing branch lacks the draw test. -/
def minimaxA (g : Rules) :
    Nat → Board g → Score → Score → Bool → Board g × Option g.Move × Score
  | 0, b, _, _, _ => (b, none, Score.fin (g.evaluate b.pos))
  | d + 1, b, alpha, beta, maximizingPlayer =>
    if g.isGameOver b.pos then (b, none, Score.fin (g.evaluate b.pos))
    else if maximizingPlayer then
      maxLoop g (childMaxA g (fun b1 a2 b2 => minimaxA g d b1 a2 b2 false))
        b (g.legalMoves b.pos) alpha beta none Score.ninf
    else
      minLoop g (childMinA g (fun b1 a2 b2 => minimaxA g d b1 a2 b2 true))
        b (g.legalMoves b.pos) alpha beta none Score.pinf

/-- The `time_left` argument of the play entry points
(`Union[chess.engine.Limit, int]`): on the very first call the host passes
the time-control descriptor (`chess.engine.Limit`, a non-integer), on later
calls the remaining clock time in milliseconds as an integer. -/
inductive TimeLeft where
  | limit : TimeLeft
  | ms : Int → TimeLeft

/-- `AVAChessEngine._calculate_engine_depth` (src/strategies.py:184-199):
map remaining time in seconds to a search depth. -/
def calculateEngineDepth (time_left : ℚ) : Nat :=
  if time_left ≤ 5 then 1
  else if time_left ≤ 15 then 2
  else if time_left ≤ 30 then 3
  else 4

/-- The depth selection of `AVAChessEngine.play` (src/strategies.py:372-376):
`depth = 4`, overridden by `_calculate_engine_depth(time_left / 1000)` when
`time_left` is an integer (i.e. not the first-call `chess.engine.Limit`). -/
def playDepthS (time_left : TimeLeft) : Nat :=
  match time_left with
  | TimeLeft.ms t => calculateEngineDepth ((t : ℚ) / 1000)
  | TimeLeft.limit => 4

/-- `AVAChessEngine.play` (src/strategies.py:362-391): pick a depth from the
time policy, run minimax with the full window and `white_move` set from the
side to move, and if minimax provided no move fall back to the first legal
move (`for move in board.legal_moves: return move`), returning `None` only
when that loop finds nothing. -/
def playS (g : Rules) (b : Board g) (time_left : TimeLeft) : Option g.Move :=
  let depth := playDepthS time_left
  let r :=
    if g.turn b.pos then minimaxS g depth b Score.ninf Score.pinf true
    else minimaxS g depth b Score.ninf Score.pinf false
  match r.2.1 with
  | some m => some m
  | none => (g.legalMoves b.pos).head?

/-- The depth selection of `play` (src/AVA_engine.py:201-211): thresholds
15/30/180 seconds for depths 1/2/3, else 4; the first-call
`chess.engine.Limit` shape gets depth 4. -/
def playDepthA (time_left : TimeLeft) : Nat :=
  match time_left with
  | TimeLeft.ms t =>
    if (t : ℚ) / 1000 ≤ 15 then 1
    else if (t : ℚ) / 1000 ≤ 30 then 2
    else if (t : ℚ) / 1000 ≤ 60 * 3 then 3
    else 4
  | TimeLeft.limit => 4

/-- The faults that can escape the search: collaborator faults per the
spec (e.g. a throw during apply/undo), and the `TypeError` raised by
subscripting the legal-move generator in the AVA_engine.py fallback. -/
inductive Fault where
  | boardFault : Fault
  | typeError : Fault
deriving DecidableEq

/-- `chess.engine.PlayResult(move, ponder)` as constructed by
`AVAChessEngine.search`. -/
structure EnginePlayResult (M : Type) where
  move : Option M
  ponder : Option M

/-- `AVAChessEngine.search` (src/strategies.py:343-360): the try/except
around `PlayResult(self.play(board, timeLeft), None)`.  The body's outcome
is `inner`; on success the move is wrapped in a `PlayResult`, on an internal
fault the handler logs `self.logger.critical(...)` and re-raises the same
error to the caller. -/
def searchCatchS (M : Type) (inner : Except Fault (Option M)) :
    Except Fault (EnginePlayResult M) :=
  match inner with
  | Except.ok m => Except.ok ⟨m, none⟩
  | Except.error e => Except.error e

/-- The try/except of `play` (src/AVA_engine.py:213-225): on success the
computed move is returned; on an internal fault the handler logs
`logging.critical(...)` and does NOT re-raise, so the function falls off the
end and returns `None` — the host observes a normal empty result, not a
propagated failure. -/
def playCatchA (M : Type) (inner : Except Fault (Option M)) :
    Except Fault (Option M) :=
  match inner with
  | Except.ok m => Except.ok m
  | Except.error _ => Except.ok none

/-- `board.legal_moves[0]` (src/AVA_engine.py:222): python-chess's
`board.legal_moves` is a `LegalMoveGenerator`, which implements iteration,
truthiness and membership but no subscripting — indexing it raises
`TypeError` no matter how many legal moves the position has. -/
def legalMovesSubscriptZero (g : Rules) (_ : g.Pos) : Except Fault g.Move :=
  Except.error Fault.typeError

/-- The try-block of `play` (src/AVA_engine.py:213-223): run minimax with
the full window and `maximizing_player` set from the side to move; when the
returned best move is the empty string (modelled as `none`) the fallback
`return board.legal_moves[0]` subscripts the legal-move generator, which
faults; otherwise the computed move is returned. -/
def playATry (g : Rules) (b : Board g) (time_left : TimeLeft) :
    Except Fault (Option g.Move) :=
  let depth := playDepthA time_left
  let r :=
    if g.turn b.pos then minimaxA g depth b Score.ninf Score.pinf true
    else minimaxA g depth b Score.ninf Score.pinf false
  match r.2.1 with
  | none =>
    match legalMovesSubscriptZero g b.pos with
    | Except.ok m => Except.ok (some m)
    | Except.error e => Except.error e
  | some m => Except.ok (some m)

/-- `play` (src/AVA_engine.py:183-225) as observed by the host: the
try-block's outcome passed through the except handler
(src/AVA_engine.py:224-225), which logs `logging.critical(...)` and does
not re-raise, so on a fault the function falls off the end and returns
`None`. -/
def playA (g : Rules) (b : Board g) (time_left : TimeLeft) : Option g.Move :=
  match playATry g b time_left with
  | Except.ok m => m
  | Except.error _ => none

/-- The pure list of moves produced by `_sort_moves` at a given position:
captures first, then all the remaining legal moves (the always-truthy
`board.is_check` test sends every non-capture to the `checks` bucket),
each part in legal-move enumeration order. -/
def sortMovesList (g : Rules) (p : g.Pos) : List g.Move :=
  (g.legalMoves p).filter (fun m => g.isCapture p m) ++
    (g.legalMoves p).filter (fun m => !g.isCapture p m)

/-- Value-level maximizing sibling loop: `vMaxLoop cv l alpha beta bm bp`
mirrors `maxLoop` without the board threading. -/
def vMaxLoop {M : Type} (cv : M → Score → Score → Score) :
    List M → Score → Score → Option M → Score → Option M × Score
  | [], _, _, bestMove, bestPosition => (bestMove, bestPosition)
  | m :: rest, alpha, beta, bestMove, bestPosition =>
    let cur := cv m alpha beta
    let bm1 := if bestPosition < cur then some m else bestMove
    let bp1 := if bestPosition < cur then cur else bestPosition
    let alpha1 := max alpha cur
    if beta ≤ alpha1 then (bm1, bp1)
    else vMaxLoop cv rest alpha1 beta bm1 bp1

/-- Value-level minimizing sibling loop. -/
def vMinLoop {M : Type} (cv : M → Score → Score → Score) :
    List M → Score → Score → Option M → Score → Option M × Score
  | [], _, _, bestMove, bestPosition => (bestMove, bestPosition)
  | m :: rest, alpha, beta, bestMove, bestPosition =>
    let cur := cv m alpha beta
    let bm1 := if cur < bestPosition then some m else bestMove
    let bp1 := if cur < bestPosition then cur else bestPosition
    let beta1 := min beta cur
    if beta1 ≤ alpha then (bm1, bp1)
    else vMinLoop cv rest alpha beta1 bm1 bp1

/-- Board-free form of the two minimax variants, generic in the move order
`order` used at each node and in the draw predicate `drawMin` applied on the
minimizing branch (`isDraw` for src/strategies.py, constantly false for
src/AVA_engine.py, whose minimizing branch has no draw test). -/
def vMinimax (g : Rules) (order : g.Pos → List g.Move)
    (drawMin : g.Pos → Bool) :
    Nat → g.Pos → Score → Score → Bool → Option g.Move × Score
  | 0, p, _, _, _ => (none, Score.fin (g.evaluate p))
  | d + 1, p, alpha, beta, maximizingPlayer =>
    if g.isGameOver p then (none, Score.fin (g.evaluate p))
    else if maximizingPlayer then
      vMaxLoop (fun m a2 b2 =>
          if g.isCheckmate (g.step p m) then Score.pinf
          else if isDraw g (g.step p m) then Score.fin 0
          else (vMinimax g order drawMin d (g.step p m) a2 b2 false).2)
        (order p) alpha beta none Score.ninf
    else
      vMinLoop (fun m a2 b2 =>
          if g.isCheckmate (g.step p m) then Score.ninf
          else if drawMin (g.step p m) then Score.fin 0
          else (vMinimax g order drawMin d (g.step p m) a2 b2 true).2)
        (order p) alpha beta none Score.pinf

/-- Left fold of `max` over the true child scores: the value computed at a
maximizing node by an unpruned minimax. -/
def foldMax {M : Type} (tv : M → Score) (l : List M) (x : Score) : Score :=
  l.foldl (fun acc m => max acc (tv m)) x

/-- Left fold of `min` over the true child scores. -/
def foldMin {M : Type} (tv : M → Score) (l : List M) (x : Score) : Score :=
  l.foldl (fun acc m => min acc (tv m)) x

/-- The spec's unpruned full minimax ("the score from an unpruned full
minimax"): the same leaves, the same move order and the same terminal
scoring of each child as `vMinimax g order drawMin`, but every sibling is
explored and combined with plain max/min — no alpha-beta window, no
cutoff. -/
def fullMinimax (g : Rules) (order : g.Pos → List g.Move)
    (drawMin : g.Pos → Bool) : Nat → g.Pos → Bool → Score
  | 0, p, _ => Score.fin (g.evaluate p)
  | d + 1, p, maximizingPlayer =>
    if g.isGameOver p then Score.fin (g.evaluate p)
    else if maximizingPlayer then
      foldMax (fun m =>
          if g.isCheckmate (g.step p m) then Score.pinf
          else if isDraw g (g.step p m) then Score.fin 0
          else fullMinimax g order drawMin d (g.step p m) false)
        (order p) Score.ninf
    else
      foldMin (fun m =>
          if g.isCheckmate (g.step p m) then Score.ninf
          else if drawMin (g.step p m) then Score.fin 0
          else fullMinimax g order drawMin d (g.step p m) true)
        (order p) Score.pinf

/-- The unpruned counterpart of `AVAChessEngine.minimax`
(src/strategies.py): move order from `_sort_moves`, draw test on both
branches. -/
def fullMinimaxS (g : Rules) (d : Nat) (p : g.Pos) (w : Bool) : Score :=
  fullMinimax g (sortMovesList g) (isDraw g) d p w

/-- The unpruned counterpart of `minimax` (src/AVA_engine.py): legal-move
enumeration order, draw test only on the maximizing branch. -/
def fullMinimaxA (g : Rules) (d : Nat) (p : g.Pos) (w : Bool) : Score :=
  fullMinimax g g.legalMoves (fun _ => false) d p w

/-! ### Order helpers -/

theorem ite_lt_max (b c : Score) : (if b < c then c else b) = max b c := by
  rcases le_or_lt c b with h | h
  · rw [if_neg (not_lt_of_ge h), max_eq_left h]
  · rw [if_pos h, max_eq_right h.le]

theorem ite_lt_min (b c : Score) : (if c < b then c else b) = min b c := by
  rcases le_or_lt b c with h | h
  · rw [if_neg (not_lt_of_ge h), min_eq_left h]
  · rw [if_pos h, min_eq_right h.le]

theorem max_max_distrib (a b c : Score) :
    max a (max b c) = max (max a b) (max a c) :=
  sup_sup_distrib_left a b c

theorem min_min_distrib (a b c : Score) :
    min a (min b c) = min (min a b) (min a c) :=
  inf_inf_distrib_left a b c

/-- Clamping a score into the window `[alpha, beta]` can be written in
either order when `alpha ≤ beta`. -/
theorem clamp_comm (alpha beta x : Score) (h : alpha ≤ beta) :
    min beta (max alpha x) = max alpha (min beta x) := by
  rcases le_total x alpha with h1 | h1
  · rw [max_eq_left h1, min_eq_right h, min_eq_right (h1.trans h),
      max_eq_left h1]
  · rcases le_total x beta with h2 | h2
    · rw [max_eq_right h1, min_eq_right h2, max_eq_right h1]
    · rw [max_eq_right h1, min_eq_left h2, max_eq_right h]

/-! ### Fold lemmas for the unpruned node values -/

theorem foldMax_cons {M : Type} (tv : M → Score) (m : M) (l : List M)
    (x : Score) : foldMax tv (m :: l) x = foldMax tv l (max x (tv m)) := rfl

theorem foldMin_cons {M : Type} (tv : M → Score) (m : M) (l : List M)
    (x : Score) : foldMin tv (m :: l) x = foldMin tv l (min x (tv m)) := rfl

theorem le_foldMax {M : Type} (tv : M → Score) (l : List M) (x : Score) :
    x ≤ foldMax tv l x := by
  induction l generalizing x with
  | nil => exact le_refl x
  | cons m rest ih =>
    exact le_trans (le_max_left x (tv m)) (ih (max x (tv m)))

theorem foldMin_le {M : Type} (tv : M → Score) (l : List M) (x : Score) :
    foldMin tv l x ≤ x := by
  induction l generalizing x with
  | nil => exact le_refl x
  | cons m rest ih =>
    exact le_trans (ih (min x (tv m))) (min_le_left x (tv m))

theorem foldMax_max {M : Type} (tv : M → Score) (l : List M) (x y : Score) :
    foldMax tv l (max x y) = max x (foldMax tv l y) := by
  induction l generalizing y with
  | nil => rfl
  | cons m rest ih =>
    rw [foldMax_cons, foldMax_cons, max_assoc, ih (max y (tv m))]

theorem foldMin_min {M : Type} (tv : M → Score) (l : List M) (x y : Score) :
    foldMin tv l (min x y) = min x (foldMin tv l y) := by
  induction l generalizing y with
  | nil => rfl
  | cons m rest ih =>
    rw [foldMin_cons, foldMin_cons, min_assoc, ih (min y (tv m))]

/-! ### The bucketing loop restores the board and sorts by capture flag -/

theorem sortMovesLoop_eq (g : Rules) (b : Board g) :
    ∀ (l captures checks others : List g.Move),
      sortMovesLoop g b l captures checks others
        = (b, captures ++ l.filter (fun m => g.isCapture b.pos m),
            checks ++ l.filter (fun m => !g.isCapture b.pos m), others) := by
  intro l
  induction l with
  | nil => intro captures checks others; simp [sortMovesLoop]
  | cons m rest ih =>
    intro captures checks others
    by_cases h : g.isCapture b.pos m
    · simp [sortMovesLoop, h, ih, List.filter_cons]
    · simp [sortMovesLoop, h, ih, List.filter_cons]

theorem sortMoves_eq (g : Rules) (b : Board g) :
    sortMoves g b = (b, sortMovesList g b.pos) := by
  simp [sortMoves, sortMovesLoop_eq, sortMovesList]

/-! ### The sibling loops restore the board and compute the value-level
loops -/

theorem maxLoop_eq (g : Rules)
    (cVal : Board g → Score → Score → Board g × Score)
    (vv : g.Pos → Score → Score → Score)
    (h : ∀ b1 a2 b2, cVal b1 a2 b2 = (b1, vv b1.pos a2 b2)) (b : Board g) :
    ∀ (l : List g.Move) (alpha beta : Score) (bm : Option g.Move)
      (bp : Score),
      maxLoop g cVal b l alpha beta bm bp
        = (b, vMaxLoop (fun m a2 b2 => vv (g.step b.pos m) a2 b2)
            l alpha beta bm bp) := by
  intro l
  induction l with
  | nil => intro alpha beta bm bp; simp [maxLoop, vMaxLoop]
  | cons m rest ih =>
    intro alpha beta bm bp
    simp only [maxLoop, vMaxLoop, h, Board.pop_push, Board.pos_push]
    by_cases hb : beta ≤ max alpha (vv (g.step b.pos m) alpha beta)
    · simp [hb]
    · simp [hb, ih]

theorem minLoop_eq (g : Rules)
    (cVal : Board g → Score → Score → Board g × Score)
    (vv : g.Pos → Score → Score → Score)
    (h : ∀ b1 a2 b2, cVal b1 a2 b2 = (b1, vv b1.pos a2 b2)) (b : Board g) :
    ∀ (l : List g.Move) (alpha beta : Score) (bm : Option g.Move)
      (bp : Score),
      minLoop g cVal b l alpha beta bm bp
        = (b, vMinLoop (fun m a2 b2 => vv (g.step b.pos m) a2 b2)
            l alpha beta bm bp) := by
  intro l
  induction l with
  | nil => intro alpha beta bm bp; simp [minLoop, vMinLoop]
  | cons m rest ih =>
    intro alpha beta bm bp
    simp only [minLoop, vMinLoop, h, Board.pop_push, Board.pos_push]
    by_cases hb : min beta (vv (g.step b.pos m) alpha beta) ≤ alpha
    · simp [hb]
    · simp [hb, ih]

/-! ### The threaded minimax functions restore the board and compute the
board-free search -/

theorem minimaxS_eq (g : Rules) :
    ∀ (d : Nat) (b : Board g) (alpha beta : Score) (w : Bool),
      minimaxS g d b alpha beta w
        = (b, vMinimax g (sortMovesList g) (isDraw g) d b.pos alpha beta
            w) := by
  intro d
  induction d with
  | zero => intro b alpha beta w; simp [minimaxS, vMinimax]
  | succ d ih =>
    intro b alpha beta w
    by_cases hg : g.isGameOver b.pos
    · simp [minimaxS, vMinimax, hg]
    · have hmax : ∀ (b1 : Board g) (a2 b2 : Score),
          childMaxS g (fun x a2 b2 => minimaxS g d x a2 b2 false) b1 a2 b2
            = (b1, if g.isCheckmate b1.pos then Score.pinf
                else if isDraw g b1.pos then Score.fin 0
                else (vMinimax g (sortMovesList g) (isDraw g) d b1.pos a2 b2
                  false).2) := by
        intro b1 a2 b2
        by_cases h1 : g.isCheckmate b1.pos
        · simp [childMaxS, h1]
        · by_cases h2 : isDraw g b1.pos
          · simp [childMaxS, h1, h2]
          · simp [childMaxS, h1, h2, ih]
      have hmin : ∀ (b1 : Board g) (a2 b2 : Score),
          childMinS g (fun x a2 b2 => minimaxS g d x a2 b2 true) b1 a2 b2
            = (b1, if g.isCheckmate b1.pos then Score.ninf
                else if isDraw g b1.pos then Score.fin 0
                else (vMinimax g (sortMovesList g) (isDraw g) d b1.pos a2 b2
                  true).2) := by
        intro b1 a2 b2
        by_cases h1 : g.isCheckmate b1.pos
        · simp [childMinS, h1]
        · by_cases h2 : isDraw g b1.pos
          · simp [childMinS, h1, h2]
          · simp [childMinS, h1, h2, ih]
      cases w
      · simp only [minimaxS, vMinimax, hg, if_neg, Bool.false_eq_true,
          if_false, sortMoves_eq]
        rw [minLoop_eq g _
          (fun p1 a2 b2 => if g.isCheckmate p1 then Score.ninf
            else if isDraw g p1 then Score.fin 0
            else (vMinimax g (sortMovesList g) (isDraw g) d p1 a2 b2
              true).2) hmin b]
      · simp only [minimaxS, vMinimax, hg, if_neg, if_true, sortMoves_eq]
        rw [maxLoop_eq g _
          (fun p1 a2 b2 => if g.isCheckmate p1 then Score.pinf
            else if isDraw g p1 then Score.fin 0
            else (vMinimax g (sortMovesList g) (isDraw g) d p1 a2 b2
              false).2) hmax b]
        simp

theorem minimaxA_eq (g : Rules) :
    ∀ (d : Nat) (b : Board g) (alpha beta : Score) (w : Bool),
      minimaxA g d b alpha beta w
        = (b, vMinimax g g.legalMoves (fun _ => false) d b.pos alpha beta
            w) := by
  intro d
  induction d with
  | zero => intro b alpha beta w; simp [minimaxA, vMinimax]
  | succ d ih =>
    intro b alpha beta w
    by_cases hg : g.isGameOver b.pos
    · simp [minimaxA, vMinimax, hg]
    · have hmax : ∀ (b1 : Board g) (a2 b2 : Score),
          childMaxA g (fun x a2 b2 => minimaxA g d x a2 b2 false) b1 a2 b2
            = (b1, if g.isCheckmate b1.pos then Score.pinf
                else if isDraw g b1.pos then Score.fin 0
                else (vMinimax g g.legalMoves (fun _ => false) d b1.pos a2 b2
                  false).2) := by
        intro b1 a2 b2
        by_cases h1 : g.isCheckmate b1.pos
        · simp [childMaxA, h1]
        · by_cases h2 : isDraw g b1.pos
          · simp [childMaxA, h1, h2]
          · simp [childMaxA, h1, h2, ih]
      have hmin : ∀ (b1 : Board g) (a2 b2 : Score),
          childMinA g (fun x a2 b2 => minimaxA g d x a2 b2 true) b1 a2 b2
            = (b1, if g.isCheckmate b1.pos then Score.ninf
                else if (fun _ => false) b1.pos = true then Score.fin 0
                else (vMinimax g g.legalMoves (fun _ => false) d b1.pos a2 b2
                  true).2) := by
        intro b1 a2 b2
        by_cases h1 : g.isCheckmate b1.pos
        · simp [childMinA, h1]
        · simp [childMinA, h1, ih]
      cases w
      · simp only [minimaxA, vMinimax, hg, if_neg, Bool.false_eq_true,
          if_false]
        rw [minLoop_eq g _
          (fun p1 a2 b2 => if g.isCheckmate p1 then Score.ninf
            else if (fun _ => false) p1 = true then Score.fin 0
            else (vMinimax g g.legalMoves (fun _ => false) d p1 a2 b2
              true).2) hmin b]
        simp
      · simp only [minimaxA, vMinimax, hg, if_neg, if_true]
        rw [maxLoop_eq g _
          (fun p1 a2 b2 => if g.isCheckmate p1 then Score.pinf
            else if isDraw g p1 then Score.fin 0
            else (vMinimax g g.legalMoves (fun _ => false) d p1 a2 b2
              false).2) hmax b]
        simp

/-! ### Alpha-beta equivalence: masking a pruned child score by the window
does not change the node value -/

theorem vMaxLoop_cons {M : Type} (cv : M → Score → Score → Score) (m : M)
    (rest : List M) (alpha beta : Score) (bm : Option M) (bp : Score) :
    vMaxLoop cv (m :: rest) alpha beta bm bp
      = (if beta ≤ max alpha (cv m alpha beta)
          then (if bp < cv m alpha beta then some m else bm,
            if bp < cv m alpha beta then cv m alpha beta else bp)
          else vMaxLoop cv rest (max alpha (cv m alpha beta)) beta
            (if bp < cv m alpha beta then some m else bm)
            (if bp < cv m alpha beta then cv m alpha beta else bp)) := rfl

theorem vMinLoop_cons {M : Type} (cv : M → Score → Score → Score) (m : M)
    (rest : List M) (alpha beta : Score) (bm : Option M) (bp : Score) :
    vMinLoop cv (m :: rest) alpha beta bm bp
      = (if min beta (cv m alpha beta) ≤ alpha
          then (if cv m alpha beta < bp then some m else bm,
            if cv m alpha beta < bp then cv m alpha beta else bp)
          else vMinLoop cv rest alpha (min beta (cv m alpha beta))
            (if cv m alpha beta < bp then some m else bm)
            (if cv m alpha beta < bp then cv m alpha beta else bp)) := rfl

/-- If a pruned child score `r` and a true child score `t` agree after
clamping into the window `[a, beta]`, they still agree after being combined
with the best of the other siblings and clamped into the wider window
`[alpha0, beta]`, provided the running alpha `a` is `max alpha0 bp` for the
best sibling score `bp` seen so far. -/
theorem key_max (alpha0 beta a bp r t X : Score) (ha : a = max alpha0 bp)
    (hab : a < beta) (hX : bp ≤ X)
    (h : min beta (max a r) = min beta (max a t)) :
    min beta (max alpha0 (max r X)) = min beta (max alpha0 (max t X)) := by
  rcases max_choice alpha0 bp with hc | hc
  · have ha0 : a = alpha0 := by rw [ha, hc]
    rw [ha0] at h
    rw [max_max_distrib alpha0 r X, max_max_distrib alpha0 t X,
      min_max_distrib_left beta (max alpha0 r) (max alpha0 X),
      min_max_distrib_left beta (max alpha0 t) (max alpha0 X), h]
  · have hab2 : a = bp := by rw [ha, hc]
    have halpha : alpha0 ≤ a := ha ▸ le_max_left _ _
    have haX : a ≤ X := hab2 ▸ hX
    have h1 : alpha0 ≤ max r X :=
      le_trans (le_trans halpha haX) (le_max_right r X)
    have h2 : alpha0 ≤ max t X :=
      le_trans (le_trans halpha haX) (le_max_right t X)
    rw [max_eq_right h1, max_eq_right h2, min_max_distrib_left,
      min_max_distrib_left]
    have hra : min beta (max a r) = max a (min beta r) :=
      clamp_comm a beta r hab.le
    have hta : min beta (max a t) = max a (min beta t) :=
      clamp_comm a beta t hab.le
    have hmax : max a (min beta r) = max a (min beta t) := by
      rw [← hra, ← hta, h]
    have hY : a ≤ min beta X := le_min hab.le haX
    calc max (min beta r) (min beta X)
        = max (min beta r) (max a (min beta X)) := by rw [max_eq_right hY]
      _ = max a (max (min beta r) (min beta X)) := (max_left_comm _ _ _).symm
      _ = max (max a (min beta r)) (min beta X) := (max_assoc _ _ _).symm
      _ = max (max a (min beta t)) (min beta X) := by rw [hmax]
      _ = max a (max (min beta t) (min beta X)) := max_assoc _ _ _
      _ = max (min beta t) (max a (min beta X)) := max_left_comm _ _ _
      _ = max (min beta t) (min beta X) := by rw [max_eq_right hY]

/-- Mirror of `key_max` for minimizing nodes with a running beta. -/
theorem key_min (beta0 alpha b2 bp r t X : Score) (hb : b2 = min beta0 bp)
    (hab : alpha < b2) (hX : X ≤ bp)
    (h : max alpha (min b2 r) = max alpha (min b2 t)) :
    max alpha (min beta0 (min r X)) = max alpha (min beta0 (min t X)) := by
  rcases min_choice beta0 bp with hc | hc
  · have hb0 : b2 = beta0 := by rw [hb, hc]
    rw [hb0] at h
    rw [min_min_distrib beta0 r X, min_min_distrib beta0 t X,
      max_min_distrib_left alpha (min beta0 r) (min beta0 X),
      max_min_distrib_left alpha (min beta0 t) (min beta0 X), h]
  · have hb2 : b2 = bp := by rw [hb, hc]
    have hbeta : b2 ≤ beta0 := hb ▸ min_le_left _ _
    have hXb : X ≤ b2 := hb2 ▸ hX
    have h1 : min r X ≤ beta0 :=
      le_trans (min_le_right r X) (le_trans hXb hbeta)
    have h2 : min t X ≤ beta0 :=
      le_trans (min_le_right t X) (le_trans hXb hbeta)
    rw [min_eq_right h1, min_eq_right h2, max_min_distrib_left,
      max_min_distrib_left]
    have hra : max alpha (min b2 r) = min b2 (max alpha r) :=
      (clamp_comm alpha b2 r hab.le).symm
    have hta : max alpha (min b2 t) = min b2 (max alpha t) :=
      (clamp_comm alpha b2 t hab.le).symm
    have hmin2 : min b2 (max alpha r) = min b2 (max alpha t) := by
      rw [← hra, ← hta, h]
    have hY : max alpha X ≤ b2 := max_le hab.le hXb
    calc min (max alpha r) (max alpha X)
        = min (max alpha r) (min b2 (max alpha X)) := by
          rw [min_eq_right hY]
      _ = min b2 (min (max alpha r) (max alpha X)) :=
          (min_left_comm _ _ _).symm
      _ = min (min b2 (max alpha r)) (max alpha X) := (min_assoc _ _ _).symm
      _ = min (min b2 (max alpha t)) (max alpha X) := by rw [hmin2]
      _ = min b2 (min (max alpha t) (max alpha X)) := min_assoc _ _ _
      _ = min (max alpha t) (min b2 (max alpha X)) := min_left_comm _ _ _
      _ = min (max alpha t) (max alpha X) := by rw [min_eq_right hY]

/-- Clamped correctness of the pruned maximizing loop against the unpruned
fold, assuming every child's pruned score agrees with its true score after
clamping into the window it was searched with. -/
theorem vMaxLoop_clamp {M : Type} (cv : M → Score → Score → Score)
    (tv : M → Score) (alpha0 beta : Score)
    (hcv : ∀ (m : M) (a2 : Score), alpha0 ≤ a2 → a2 < beta →
      min beta (max a2 (cv m a2 beta)) = min beta (max a2 (tv m))) :
    ∀ (l : List M) (a2 bp : Score) (bm : Option M),
      a2 = max alpha0 bp → a2 < beta →
      min beta (max alpha0 (vMaxLoop cv l a2 beta bm bp).2)
        = min beta (max alpha0 (foldMax tv l bp)) := by
  intro l
  induction l with
  | nil => intro a2 bp bm ha hb; rfl
  | cons m rest ih =>
    intro a2 bp bm ha hb
    have halpha0 : alpha0 ≤ a2 := ha ▸ le_max_left _ _
    have hbpa : bp ≤ a2 := ha ▸ le_max_right _ _
    have hH := hcv m a2 halpha0 hb
    rw [foldMax_cons]
    by_cases hcut : beta ≤ max a2 (cv m a2 beta)
    · have hloop : (vMaxLoop cv (m :: rest) a2 beta bm bp).2
          = (if bp < cv m a2 beta then cv m a2 beta else bp) := by
        rw [vMaxLoop_cons, if_pos hcut]
      have hcur_ge : beta ≤ cv m a2 beta := by
        rcases max_choice a2 (cv m a2 beta) with hc | hc
        · exact absurd (hc ▸ hcut) (not_le_of_lt hb)
        · exact hc ▸ hcut
      have hbp1 : bp < cv m a2 beta :=
        lt_of_le_of_lt hbpa (lt_of_lt_of_le hb hcur_ge)
      have ht_ge : beta ≤ tv m := by
        have hL : min beta (max a2 (cv m a2 beta)) = beta :=
          min_eq_left hcut
        rw [hL] at hH
        have hR : beta ≤ max a2 (tv m) := by
          rw [eq_comm, min_eq_left_iff] at hH
          exact hH
        rcases max_choice a2 (tv m) with hc | hc
        · exact absurd (hc ▸ hR) (not_le_of_lt hb)
        · exact hc ▸ hR
      have hfold_ge : beta ≤ foldMax tv rest (max bp (tv m)) :=
        le_trans (le_trans ht_ge (le_max_right bp (tv m)))
          (le_foldMax tv rest _)
      rw [hloop, if_pos hbp1,
        min_eq_left (hcur_ge.trans (le_max_right alpha0 _)),
        min_eq_left (hfold_ge.trans (le_max_right alpha0 _))]
    · have hloop : (vMaxLoop cv (m :: rest) a2 beta bm bp).2
          = (vMaxLoop cv rest (max a2 (cv m a2 beta)) beta
              (if bp < cv m a2 beta then some m else bm)
              (if bp < cv m a2 beta then cv m a2 beta else bp)).2 := by
        rw [vMaxLoop_cons, if_neg hcut]
      have hcut2 : max a2 (cv m a2 beta) < beta := lt_of_not_le hcut
      have hstep := ih (max a2 (cv m a2 beta))
        (if bp < cv m a2 beta then cv m a2 beta else bp)
        (if bp < cv m a2 beta then some m else bm)
        (by rw [ite_lt_max, ha, max_assoc]) hcut2
      rw [hloop, hstep, ite_lt_max, max_comm bp (cv m a2 beta), foldMax_max,
        max_comm bp (tv m), foldMax_max]
      exact key_max alpha0 beta a2 bp (cv m a2 beta) (tv m)
        (foldMax tv rest bp) ha hb (le_foldMax tv rest bp) hH

/-- Clamped correctness of the pruned minimizing loop against the unpruned
fold. -/
theorem vMinLoop_clamp {M : Type} (cv : M → Score → Score → Score)
    (tv : M → Score) (alpha beta0 : Score)
    (hcv : ∀ (m : M) (b2 : Score), b2 ≤ beta0 → alpha < b2 →
      max alpha (min b2 (cv m alpha b2)) = max alpha (min b2 (tv m))) :
    ∀ (l : List M) (b2 bp : Score) (bm : Option M),
      b2 = min beta0 bp → alpha < b2 →
      max alpha (min beta0 (vMinLoop cv l alpha b2 bm bp).2)
        = max alpha (min beta0 (foldMin tv l bp)) := by
  intro l
  induction l with
  | nil => intro b2 bp bm hbeq hb; rfl
  | cons m rest ih =>
    intro b2 bp bm hbeq hb
    have hbeta0 : b2 ≤ beta0 := hbeq ▸ min_le_left _ _
    have hbpb : b2 ≤ bp := hbeq ▸ min_le_right _ _
    have hH := hcv m b2 hbeta0 hb
    rw [foldMin_cons]
    by_cases hcut : min b2 (cv m alpha b2) ≤ alpha
    · have hloop : (vMinLoop cv (m :: rest) alpha b2 bm bp).2
          = (if cv m alpha b2 < bp then cv m alpha b2 else bp) := by
        rw [vMinLoop_cons, if_pos hcut]
      have hcur_le : cv m alpha b2 ≤ alpha := by
        rcases min_choice b2 (cv m alpha b2) with hc | hc
        · exact absurd (hc ▸ hcut) (not_le_of_lt hb)
        · exact hc ▸ hcut
      have hbp1 : cv m alpha b2 < bp :=
        lt_of_le_of_lt hcur_le (lt_of_lt_of_le hb hbpb)
      have ht_le : tv m ≤ alpha := by
        have hL : max alpha (min b2 (cv m alpha b2)) = alpha :=
          max_eq_left hcut
        rw [hL] at hH
        have hR : min b2 (tv m) ≤ alpha := by
          rw [eq_comm, max_eq_left_iff] at hH
          exact hH
        rcases min_choice b2 (tv m) with hc | hc
        · exact absurd (hc ▸ hR) (not_le_of_lt hb)
        · exact hc ▸ hR
      have hfold_le : foldMin tv rest (min bp (tv m)) ≤ alpha :=
        le_trans (foldMin_le tv rest _)
          (le_trans (min_le_right bp (tv m)) ht_le)
      rw [hloop, if_pos hbp1,
        max_eq_left ((min_le_right beta0 _).trans hcur_le),
        max_eq_left ((min_le_right beta0 _).trans hfold_le)]
    · have hloop : (vMinLoop cv (m :: rest) alpha b2 bm bp).2
          = (vMinLoop cv rest alpha (min b2 (cv m alpha b2))
              (if cv m alpha b2 < bp then some m else bm)
              (if cv m alpha b2 < bp then cv m alpha b2 else bp)).2 := by
        rw [vMinLoop_cons, if_neg hcut]
      have hcut2 : alpha < min b2 (cv m alpha b2) := lt_of_not_le hcut
      have hstep := ih (min b2 (cv m alpha b2))
        (if cv m alpha b2 < bp then cv m alpha b2 else bp)
        (if cv m alpha b2 < bp then some m else bm)
        (by rw [ite_lt_min, hbeq, min_assoc]) hcut2
      rw [hloop, hstep, ite_lt_min, min_comm bp (cv m alpha b2), foldMin_min,
        min_comm bp (tv m), foldMin_min]
      exact key_min beta0 alpha b2 bp (cv m alpha b2) (tv m)
        (foldMin tv rest bp) hbeq hb (foldMin_le tv rest bp) hH

theorem Score.max_ninf (x : Score) : max Score.ninf x = x :=
  max_eq_right bot_le

theorem Score.min_pinf (x : Score) : min Score.pinf x = x :=
  min_eq_right le_top

/-- Clamped equivalence of the pruned board-free search and the unpruned
full minimax, for every window `alpha < beta`, by induction on depth. -/
theorem vMinimax_clamp (g : Rules) (order : g.Pos → List g.Move)
    (drawMin : g.Pos → Bool) :
    ∀ (d : Nat) (p : g.Pos) (alpha beta : Score) (w : Bool), alpha < beta →
      min beta (max alpha (vMinimax g order drawMin d p alpha beta w).2)
        = min beta (max alpha (fullMinimax g order drawMin d p w)) := by
  intro d
  induction d with
  | zero => intro p alpha beta w hab; rfl
  | succ d ih =>
    intro p alpha beta w hab
    by_cases hg : g.isGameOver p
    · simp [vMinimax, fullMinimax, hg]
    · cases w
      · have hcv : ∀ (m : g.Move) (b2 : Score), b2 ≤ beta → alpha < b2 →
            max alpha (min b2
              ((fun m2 a2 bb =>
                if g.isCheckmate (g.step p m2) then Score.ninf
                else if drawMin (g.step p m2) then Score.fin 0
                else (vMinimax g order drawMin d (g.step p m2) a2 bb
                  true).2) m alpha b2))
              = max alpha (min b2
                ((fun m2 =>
                  if g.isCheckmate (g.step p m2) then Score.ninf
                  else if drawMin (g.step p m2) then Score.fin 0
                  else fullMinimax g order drawMin d (g.step p m2) true)
                  m)) := by
          intro m b2 hb2 hab2
          by_cases h1 : g.isCheckmate (g.step p m)
          · simp only [h1, if_true]
          · by_cases h2 : drawMin (g.step p m)
            · simp only [h1, h2, if_true, Bool.false_eq_true, if_false]
            · simp only [h1, h2, Bool.false_eq_true, if_false]
              rw [← clamp_comm alpha b2 _ hab2.le,
                ← clamp_comm alpha b2 _ hab2.le]
              exact ih (g.step p m) alpha b2 true hab2
        have e1 : (vMinimax g order drawMin (d + 1) p alpha beta false).2
            = (vMinLoop (fun m2 a2 bb =>
                if g.isCheckmate (g.step p m2) then Score.ninf
                else if drawMin (g.step p m2) then Score.fin 0
                else (vMinimax g order drawMin d (g.step p m2) a2 bb true).2)
              (order p) alpha beta none Score.pinf).2 := by
          simp [vMinimax, hg]
        have e2 : fullMinimax g order drawMin (d + 1) p false
            = foldMin (fun m2 =>
                if g.isCheckmate (g.step p m2) then Score.ninf
                else if drawMin (g.step p m2) then Score.fin 0
                else fullMinimax g order drawMin d (g.step p m2) true)
              (order p) Score.pinf := by
          simp [fullMinimax, hg]
        rw [e1, e2, clamp_comm alpha beta _ hab.le,
          clamp_comm alpha beta _ hab.le]
        exact vMinLoop_clamp
          (fun m2 a2 bb =>
            if g.isCheckmate (g.step p m2) then Score.ninf
            else if drawMin (g.step p m2) then Score.fin 0
            else (vMinimax g order drawMin d (g.step p m2) a2 bb true).2)
          (fun m2 =>
            if g.isCheckmate (g.step p m2) then Score.ninf
            else if drawMin (g.step p m2) then Score.fin 0
            else fullMinimax g order drawMin d (g.step p m2) true)
          alpha beta hcv (order p) beta Score.pinf none
          (min_eq_left le_top).symm hab
      · have hcv : ∀ (m : g.Move) (a2 : Score), alpha ≤ a2 → a2 < beta →
            min beta (max a2
              ((fun m2 ax bb =>
                if g.isCheckmate (g.step p m2) then Score.pinf
                else if isDraw g (g.step p m2) then Score.fin 0
                else (vMinimax g order drawMin d (g.step p m2) ax bb
                  false).2) m a2 beta))
              = min beta (max a2
                ((fun m2 =>
                  if g.isCheckmate (g.step p m2) then Score.pinf
                  else if isDraw g (g.step p m2) then Score.fin 0
                  else fullMinimax g order drawMin d (g.step p m2) false)
                  m)) := by
          intro m a2 ha2 hab2
          by_cases h1 : g.isCheckmate (g.step p m)
          · simp only [h1, if_true]
          · by_cases h2 : isDraw g (g.step p m)
            · simp only [h1, h2, if_true, Bool.false_eq_true, if_false]
            · simp only [h1, h2, Bool.false_eq_true, if_false]
              exact ih (g.step p m) a2 beta false hab2
        have e1 : (vMinimax g order drawMin (d + 1) p alpha beta true).2
            = (vMaxLoop (fun m2 ax bb =>
                if g.isCheckmate (g.step p m2) then Score.pinf
                else if isDraw g (g.step p m2) then Score.fin 0
                else (vMinimax g order drawMin d (g.step p m2) ax bb
                  false).2)
              (order p) alpha beta none Score.ninf).2 := by
          simp [vMinimax, hg]
        have e2 : fullMinimax g order drawMin (d + 1) p true
            = foldMax (fun m2 =>
                if g.isCheckmate (g.step p m2) then Score.pinf
                else if isDraw g (g.step p m2) then Score.fin 0
                else fullMinimax g order drawMin d (g.step p m2) false)
              (order p) Score.ninf := by
          simp [fullMinimax, hg]
        rw [e1, e2]
        exact vMaxLoop_clamp
          (fun m2 ax bb =>
            if g.isCheckmate (g.step p m2) then Score.pinf
            else if isDraw g (g.step p m2) then Score.fin 0
            else (vMinimax g order drawMin d (g.step p m2) ax bb false).2)
          (fun m2 =>
            if g.isCheckmate (g.step p m2) then Score.pinf
            else if isDraw g (g.step p m2) then Score.fin 0
            else fullMinimax g order drawMin d (g.step p m2) false)
          alpha beta hcv (order p) alpha Score.ninf none
          (max_eq_left bot_le).symm hab

/-- With the full window the window mask is the identity, so the pruned
board-free search computes exactly the unpruned full minimax score. -/
theorem vMinimax_full (g : Rules) (order : g.Pos → List g.Move)
    (drawMin : g.Pos → Bool) (d : Nat) (p : g.Pos) (w : Bool) :
    (vMinimax g order drawMin d p Score.ninf Score.pinf w).2
      = fullMinimax g order drawMin d p w := by
  have h := vMinimax_clamp g order drawMin d p Score.ninf Score.pinf w
    Score.ninf_lt_pinf
  rw [Score.max_ninf, Score.max_ninf, Score.min_pinf, Score.min_pinf] at h
  exact h

/-- Transition table of a small concrete game used to instantiate the
interface: positions and moves are natural numbers. -/
def demoStep : Nat → Nat → Nat
  | 0, 1 => 1
  | 0, 2 => 2
  | 0, 3 => 3
  | 0, 4 => 4
  | 6, 5 => 7
  | _, _ => 99

/-- A concrete instance of the Board collaborator.  From position `0` (side
to move: white) the legal moves are `1` (a capture), `2` (a quiet move), `3`
(a non-capture giving check) and `4` (mating the opponent).  From position
`6` (side to move: black) the single legal move `5` leads to position `7`,
a stalemate (drawn, game over, not checkmate).  Position `8` is game over
by fivefold repetition yet still has the legal move `6` — the chess
situation in which a game-over position retains legal moves. -/
def demo : Rules where
  Pos := Nat
  Move := Nat
  step := demoStep
  legalMoves p :=
    if p = 0 then [1, 2, 3, 4] else if p = 6 then [5]
    else if p = 8 then [6] else []
  isCheckmate p := p = 4
  isStalemate p := p = 7
  isInsufficientMaterial _ := false
  isSeventyfiveMoves _ := false
  isFivefoldRepetition p := p = 8
  isRepetition3 _ := false
  isCheck p := p = 3
  isGameOver p := p = 4 || p = 5 || p = 7 || p = 8
  isCapture p m := p = 0 && m = 1
  turn p := !(p = 6)
  evaluate p :=
    if p = 1 then 5 else if p = 2 then 2 else if p = 3 then 1
    else if p = 7 then 7 else 0

/-- A fresh board at the demo game's position `0`. -/
def demoB0 : Board demo := ⟨(0 : Nat), ([] : List Nat)⟩

/-- A fresh board at the demo game's position `6` (black to move, whose only
move reaches the drawn position `7`). -/
def demoB6 : Board demo := ⟨(6 : Nat), ([] : List Nat)⟩

/-- A fresh board at position `5`, which is game over with no legal
moves. -/
def demoB5 : Board demo := ⟨(5 : Nat), ([] : List Nat)⟩

/-- The board after pushing move `4` at position `0`: its position `4` is
checkmate. -/
def demoBC : Board demo := ⟨(0 : Nat), ([4] : List Nat)⟩

/-- A fresh board at position `8`: game over by fivefold repetition, but
with the legal move `6` still available. -/
def demoB8 : Board demo := ⟨(8 : Nat), ([] : List Nat)⟩

instance : DecidableEq demo.Pos := inferInstanceAs (DecidableEq Nat)

instance : DecidableEq demo.Move := inferInstanceAs (DecidableEq Nat)

/-- Shared leaf lemma: at depth `0`, or when the position is already game
over, both minimax variants return the untouched board, no move, and the
static evaluation. -/
theorem minimax_leaf_eq (g : Rules) (d : Nat) (b : Board g)
    (alpha beta : Score) (w : Bool)
    (h : d = 0 ∨ g.isGameOver b.pos = true) :
    minimaxS g d b alpha beta w = (b, none, Score.fin (g.evaluate b.pos)) ∧
    minimaxA g d b alpha beta w
      = (b, none, Score.fin (g.evaluate b.pos)) := by
  rcases h with h | h
  · subst h
    exact ⟨rfl, rfl⟩
  · cases d with
    | zero => exact ⟨rfl, rfl⟩
    | succ d => constructor <;> simp [minimaxS, minimaxA, h]

/-! ### Claim theorems -/

/-- C1: for every position, depth and side, the alpha-beta search called
with the full window `(-inf, +inf)` returns the same score as the unpruned
full minimax of the same depth with the same move order, leaf evaluation
and terminal scoring — for both the strategies.py and the AVA_engine.py
variant; the cutoff changes only which nodes are visited, never the
returned score. -/
theorem alphabeta_full_window_eq_full_minimax (g : Rules) (d : Nat)
    (b : Board g) (w : Bool) :
    (minimaxS g d b Score.ninf Score.pinf w).2.2 = fullMinimaxS g d b.pos w ∧
    (minimaxA g d b Score.ninf Score.pinf w).2.2
      = fullMinimaxA g d b.pos w := by
  constructor
  · rw [minimaxS_eq]
    exact vMinimax_full g (sortMovesList g) (isDraw g) d b.pos w
  · rw [minimaxA_eq]
    exact vMinimax_full g g.legalMoves (fun _ => false) d b.pos w

/-- C2: after any search call returns — with any depth, window and side —
the position is exactly its pre-call state: every pushed move (including
the pushes performed while ordering moves in `_sort_moves`) has been popped
again. -/
theorem search_restores_position (g : Rules) (d : Nat) (b : Board g)
    (alpha beta : Score) (w : Bool) :
    (minimaxS g d b alpha beta w).1 = b ∧
    (minimaxA g d b alpha beta w).1 = b ∧
    (sortMoves g b).1 = b := by
  refine ⟨?_, ?_, ?_⟩
  · rw [minimaxS_eq]
  · rw [minimaxA_eq]
  · rw [sortMoves_eq]

/-- C3 (code bug): the drawn, non-checkmate child `7` explored on the
minimizing branch is scored `0` as claimed by the strategies.py variant,
but the AVA_engine.py variant, whose minimizing branch lacks the draw test,
recurses into the game-over leaf and scores it `evaluate(7) = 7`. -/
theorem minimizing_draw_divergence :
    isDraw demo (7 : Nat) = true ∧ demo.isCheckmate (7 : Nat) = false ∧
    demo.evaluate (7 : Nat) = 7 ∧
    (minimaxS demo 1 demoB6 Score.ninf Score.pinf false).2.2
      = Score.fin 0 ∧
    (minimaxA demo 1 demoB6 Score.ninf Score.pinf false).2.2
      = Score.fin 7 := by
  refine ⟨rfl, rfl, rfl, ?_, ?_⟩ <;> decide

/-- C4 (code bug): at the demo position `0` the orderer returns
`[1, 2, 3, 4]` — the capture `1` first, then every non-capture in
enumeration order, because the source's `if board.is_check:` tests the
always-truthy bound method instead of calling it; the quiet non-check move
`2` therefore precedes the checking move `3`, contradicting the claimed
captures → checks → quiet bucket order. -/
theorem sort_moves_check_bucket_divergence :
    (sortMoves demo demoB0).2 = ([1, 2, 3, 4] : List Nat) ∧
    demo.isCapture (0 : Nat) (2 : Nat) = false ∧
    demo.isCheck (demo.step (0 : Nat) (2 : Nat)) = false ∧
    demo.isCapture (0 : Nat) (3 : Nat) = false ∧
    demo.isCheck (demo.step (0 : Nat) (3 : Nat)) = true := by
  refine ⟨?_, rfl, rfl, rfl, rfl⟩
  decide

/-- C5: a child position that is checkmate is scored with the sentinel —
`+inf` on the maximizing branch, `-inf` on the minimizing branch, in both
variants — without recursing: the result does not depend on the recursive
search function `recur` at all. -/
theorem checkmate_child_scored_sentinel (g : Rules)
    (recur : Board g → Score → Score → Board g × Option g.Move × Score)
    (b1 : Board g) (alpha beta : Score)
    (h : g.isCheckmate b1.pos = true) :
    childMaxS g recur b1 alpha beta = (b1, Score.pinf) ∧
    childMinS g recur b1 alpha beta = (b1, Score.ninf) ∧
    childMaxA g recur b1 alpha beta = (b1, Score.pinf) ∧
    childMinA g recur b1 alpha beta = (b1, Score.ninf) := by
  refine ⟨?_, ?_, ?_, ?_⟩ <;>
    simp [childMaxS, childMinS, childMaxA, childMinA, h]

theorem checkmate_child_scored_sentinel_witness :
    demo.isCheckmate demoBC.pos = true ∧
    childMaxS demo (fun bb _ _ => (bb, none, Score.ninf)) demoBC
      Score.ninf Score.pinf = (demoBC, Score.pinf) :=
  ⟨by decide,
    (checkmate_child_scored_sentinel demo
      (fun bb _ _ => (bb, none, Score.ninf)) demoBC Score.ninf Score.pinf
      (by decide)).1⟩

/-- C6: a call at depth `0`, or on a position that is already game over, is
a leaf: both variants return the pair (no move, static evaluation of the
position), regardless of how many legal moves exist. -/
theorem leaf_returns_none_and_eval (g : Rules) (d : Nat) (b : Board g)
    (alpha beta : Score) (w : Bool)
    (h : d = 0 ∨ g.isGameOver b.pos = true) :
    minimaxS g d b alpha beta w = (b, none, Score.fin (g.evaluate b.pos)) ∧
    minimaxA g d b alpha beta w
      = (b, none, Score.fin (g.evaluate b.pos)) :=
  minimax_leaf_eq g d b alpha beta w h

theorem leaf_returns_none_and_eval_witness :
    ((0 : Nat) = 0 ∨ demo.isGameOver demoB0.pos = true) ∧
    minimaxS demo 0 demoB0 Score.ninf Score.pinf true
      = (demoB0, none, Score.fin (demo.evaluate demoB0.pos)) :=
  ⟨Or.inl rfl,
    (leaf_returns_none_and_eval demo 0 demoB0 Score.ninf Score.pinf true
      (Or.inl rfl)).1⟩

/-- C7 (counterexample): at the demo position `8` — game over by fivefold
repetition yet still holding the legal move `6` — the AVA_engine.py play
gets an empty best move from the leaf search, its fallback subscripts the
non-subscriptable legal-move generator and faults, and the except handler
swallows the fault: play returns no move even though a first legal move
exists, refuting "returns a non-empty move ... falls back to returning the
first legal move" as stated. -/
theorem play_fallback_counterexample :
    demo.legalMoves demoB8.pos ≠ ([] : List Nat) ∧
    (if demo.turn demoB8.pos then
        minimaxA demo (playDepthA TimeLeft.limit) demoB8 Score.ninf
          Score.pinf true
      else minimaxA demo (playDepthA TimeLeft.limit) demoB8 Score.ninf
          Score.pinf false).2.1 = none ∧
    (demo.legalMoves demoB8.pos).head? = some (6 : Nat) ∧
    playA demo demoB8 TimeLeft.limit = none := by
  refine ⟨by decide, by decide, by decide, by decide⟩

/-- C7 (amended): whenever the root position has at least one legal move,
the strategies.py play returns a move, falling back to the first legal move
when its minimax yields none; the AVA_engine.py fallback, however,
subscripts the legal-move generator — a `TypeError` swallowed by the
non-re-raising except handler — so whenever its minimax yields no best
move, that variant returns no move at all. -/
theorem play_nonempty_fallback_amended (g : Rules) (b : Board g)
    (t : TimeLeft) (h : g.legalMoves b.pos ≠ []) :
    (playS g b t).isSome = true ∧
    ((if g.turn b.pos then
        minimaxS g (playDepthS t) b Score.ninf Score.pinf true
      else minimaxS g (playDepthS t) b Score.ninf Score.pinf false).2.1
        = none → playS g b t = (g.legalMoves b.pos).head?) ∧
    ((if g.turn b.pos then
        minimaxA g (playDepthA t) b Score.ninf Score.pinf true
      else minimaxA g (playDepthA t) b Score.ninf Score.pinf false).2.1
        = none → playA g b t = none) := by
  refine ⟨?_, ?_, ?_⟩
  · cases hm : (if g.turn b.pos then
        minimaxS g (playDepthS t) b Score.ninf Score.pinf true
      else minimaxS g (playDepthS t) b Score.ninf Score.pinf false).2.1 with
    | some m => simp [playS, hm]
    | none =>
      cases hl : g.legalMoves b.pos with
      | nil => exact absurd hl h
      | cons a as => simp [playS, hm, hl]
  · intro hm
    simp [playS, hm]
  · intro hm
    simp [playA, playATry, legalMovesSubscriptZero, hm]

theorem play_nonempty_fallback_amended_witness :
    demo.legalMoves demoB0.pos ≠ [] ∧
    (playS demo demoB0 (TimeLeft.ms 4000)).isSome = true :=
  ⟨by decide,
    (play_nonempty_fallback_amended demo demoB0 (TimeLeft.ms 4000)
      (by decide)).1⟩

/-- C8: the strategies.py time policy maps remaining milliseconds `t` to
depth 1 when `t/1000 ≤ 5`, depth 2 when `5 < t/1000 ≤ 15`, depth 3 when
`15 < t/1000 ≤ 30` and depth 4 otherwise — so 4000, 10000, 20000, 120000 ms
give depths 1, 2, 3, 4 — and the non-integer first-call descriptor gets the
maximum depth 4. -/
theorem time_policy_depths :
    (∀ t : Int, (t : ℚ) / 1000 ≤ 5 → playDepthS (TimeLeft.ms t) = 1) ∧
    (∀ t : Int, 5 < (t : ℚ) / 1000 → (t : ℚ) / 1000 ≤ 15 →
      playDepthS (TimeLeft.ms t) = 2) ∧
    (∀ t : Int, 15 < (t : ℚ) / 1000 → (t : ℚ) / 1000 ≤ 30 →
      playDepthS (TimeLeft.ms t) = 3) ∧
    (∀ t : Int, 30 < (t : ℚ) / 1000 → playDepthS (TimeLeft.ms t) = 4) ∧
    playDepthS (TimeLeft.ms 4000) = 1 ∧
    playDepthS (TimeLeft.ms 10000) = 2 ∧
    playDepthS (TimeLeft.ms 20000) = 3 ∧
    playDepthS (TimeLeft.ms 120000) = 4 ∧
    playDepthS TimeLeft.limit = 4 := by
  refine ⟨?_, ?_, ?_, ?_, ?_, ?_, ?_, ?_, rfl⟩
  · intro t h
    simp [playDepthS, calculateEngineDepth, h]
  · intro t h1 h2
    simp [playDepthS, calculateEngineDepth, not_le_of_lt h1, h2]
  · intro t h1 h2
    have h5 : ¬(t : ℚ) / 1000 ≤ 5 :=
      not_le_of_lt (lt_trans (by norm_num : (5 : ℚ) < 15) h1)
    simp [playDepthS, calculateEngineDepth, h5, not_le_of_lt h1, h2]
  · intro t h
    have h5 : ¬(t : ℚ) / 1000 ≤ 5 :=
      not_le_of_lt (lt_trans (by norm_num : (5 : ℚ) < 30) h)
    have h15 : ¬(t : ℚ) / 1000 ≤ 15 :=
      not_le_of_lt (lt_trans (by norm_num : (15 : ℚ) < 30) h)
    simp [playDepthS, calculateEngineDepth, h5, h15, not_le_of_lt h]
  · norm_num [playDepthS, calculateEngineDepth]
  · norm_num [playDepthS, calculateEngineDepth]
  · norm_num [playDepthS, calculateEngineDepth]
  · norm_num [playDepthS, calculateEngineDepth]

theorem time_policy_depths_witness :
    ((3000 : Int) : ℚ) / 1000 ≤ 5 ∧ playDepthS (TimeLeft.ms 3000) = 1 :=
  ⟨by norm_num, time_policy_depths.1 3000 (by norm_num)⟩

/-- C9 (counterexample): in the AVA_engine.py variant an internal fault is
caught and logged but NOT re-raised: the host observes the normal-looking
empty result `ok none`, not a propagated failure — a silently swallowed
error that yields no move, contradicting the claim as stated. -/
theorem fault_swallowed_counterexample :
    playCatchA Nat (Except.error Fault.boardFault) = Except.ok none ∧
    playCatchA Nat (Except.error Fault.boardFault)
      ≠ Except.error Fault.boardFault := by
  refine ⟨rfl, ?_⟩
  intro h
  exact Except.noConfusion h

/-- C9 (amended): the strategies.py entry point `search` catches, logs and
re-raises any internal fault, so its host sees either a valid `PlayResult`
or the single propagated failure; the AVA_engine.py entry point `play`
catches and logs but returns `None` instead of re-raising. -/
theorem fault_propagation_amended (M : Type) (e : Fault) (m : Option M) :
    searchCatchS M (Except.error e) = Except.error e ∧
    searchCatchS M (Except.ok m) = Except.ok ⟨m, none⟩ ∧
    playCatchA M (Except.error e) = Except.ok none ∧
    playCatchA M (Except.ok m) = Except.ok m :=
  ⟨rfl, rfl, rfl, rfl⟩

/-- C10: on a root position that is already game over with no legal moves,
the strategies.py play returns no move rather than raising: the leaf search
yields an empty best move and the fallback loop over the empty legal-move
enumeration finds nothing. -/
theorem gameover_play_returns_none (g : Rules) (b : Board g) (t : TimeLeft)
    (h1 : g.isGameOver b.pos = true) (h2 : g.legalMoves b.pos = []) :
    playS g b t = none := by
  have hm1 :=
    (minimax_leaf_eq g (playDepthS t) b Score.ninf Score.pinf true
      (Or.inr h1)).1
  have hm2 :=
    (minimax_leaf_eq g (playDepthS t) b Score.ninf Score.pinf false
      (Or.inr h1)).1
  cases hturn : g.turn b.pos <;> simp [playS, hturn, hm1, hm2, h2]

theorem gameover_play_returns_none_witness :
    demo.isGameOver demoB5.pos = true ∧ demo.legalMoves demoB5.pos = [] ∧
    playS demo demoB5 (TimeLeft.ms 4000) = none :=
  ⟨by decide, by decide,
    gameover_play_returns_none demo demoB5 (TimeLeft.ms 4000) (by decide)
      (by decide)⟩

end AVA
